import Mathlib

/-!
Verification of the resumable, deduplicating crawl engine of
`fetch_nadlan_data.py` (house-prices-scraper).

The Python source is shallowly embedded: records are structures of string
fields, the checkpoint directory is an association list from filenames to
parsed file contents, and the per-entity crawl loop is a function over an
explicit page script.  Every definition is translated from the source file;
comments cite the corresponding lines.
-/

namespace HousePrices

/-- A transaction record (`base_row_data`, lines 301-333 of
`fetch_nadlan_data.py`).  The Python dict keys are Hebrew; the field
correspondence is: `address` = כתובת, `area` = מ"ר, `transactionDate` =
תאריך עסקה, `price` = מחיר, `parcelRef` = גוש/חלקה/תת-חלקה,
`propertyType` = סוג נכס, `rooms` = חדרים, `floor` = קומה,
`buildYear` = שנת בנייה, `pricePerArea` = מחיר למ"ר,
`floorsInBuilding` = קומות במבנה.  All values are raw text. -/
structure TransactionRecord where
  address : String
  area : String
  transactionDate : String
  price : String
  parcelRef : String
  propertyType : String
  rooms : String
  floor : String
  buildYear : String
  pricePerArea : String
  floorsInBuilding : String
deriving DecidableEq, Repr

instance : Inhabited TransactionRecord :=
  ⟨⟨"", "", "", "", "", "", "", "", "", "", ""⟩⟩

/-- The key string of `create_record_hash` (line 65):
`f"{record.get('כתובת','')}-{record.get('תאריך עסקה','')}-{record.get('מחיר','')}-{record.get('גוש/חלקה/תת-חלקה','')}"`.
The Python function returns `hashlib.md5(key_fields.encode('utf-8')).hexdigest()`;
MD5 is a fixed deterministic function of this key string, and the embedding
represents the digest by the key string itself.  Equal key strings therefore
model equal digests (sound, since MD5 maps equal inputs to equal outputs);
inequality of key strings models inequality of digests up to MD5 collisions,
which are not modelled. -/
def create_record_hash (record : TransactionRecord) : String :=
  record.address ++ "-" ++ record.transactionDate ++ "-" ++ record.price
    ++ "-" ++ record.parcelRef

/-- Python `str.strip()`: remove leading and trailing whitespace. -/
def stripStr (s : String) : String :=
  ⟨((s.data.dropWhile Char.isWhitespace).reverse.dropWhile Char.isWhitespace).reverse⟩

/-- `safe_get` (lines 88-89):
`features[idx].text.strip() if len(features) > idx else ""`.
The feature list is embedded as the list of the cells' raw `.text` values. -/
def safe_get (features : List String) (idx : Nat) : String :=
  stripStr (features.getD idx "")

/-- The body of the two `if` statements at lines 116-119: override
`transactionDate` and `price` of a copy of the base record with whichever of
the pair's values is non-empty (Python string truthiness). -/
def overrideTxn (base : TransactionRecord) (d p : String) : TransactionRecord :=
  let b1 := if d = "" then base else { base with transactionDate := d }
  if p = "" then b1 else { b1 with price := p }

/-- Whether the `(date, price)` pair at pair index `i` is fully empty —
the loop exit test at line 109 for `date_idx = 8 + 2*i`,
`price_idx = 9 + 2*i` (lines 102-103). -/
def pairEmpty (features : List String) (i : Nat) : Prop :=
  safe_get features (8 + 2 * i) = "" ∧ safe_get features (9 + 2 * i) = ""

instance (features : List String) (i : Nat) : Decidable (pairEmpty features i) :=
  inferInstanceAs (Decidable (_ ∧ _))

/-- The `while True` loop of `extract_multiple_transactions` (lines 100-122),
embedded with an explicit fuel argument that bounds the number of iterations.
The loop body reads the pair at `transaction_index = i`, stops when both
values are empty, and otherwise emits the overridden copy and increments the
index.  Fuel `features.length + 1` is always sufficient: reads past the end
of `features` yield `""` (`safe_get`), so the pair at index `features.length`
is always fully empty and the loop exits no later than that
(`extractLoop_fuel_sufficient` below makes this exact). -/
def extractLoop (features : List String) (base : TransactionRecord) :
    Nat → Nat → List TransactionRecord
  | _, 0 => []
  | i, fuel + 1 =>
    let d := safe_get features (8 + 2 * i)
    let p := safe_get features (9 + 2 * i)
    if d = "" ∧ p = "" then []
    else overrideTxn base d p :: extractLoop features base (i + 1) fuel

/-- `extract_multiple_transactions` (lines 92-124): always emits a copy of
the base row first (line 97), then the additional transactions produced by
the while loop. -/
def extract_multiple_transactions (features : List String)
    (base_row_data : TransactionRecord) : List TransactionRecord :=
  base_row_data :: extractLoop features base_row_data 0 (features.length + 1)

/-! ## Checkpoint store

`save_checkpoint` (lines 127-140) and `load_latest_checkpoint` (lines
143-172) work on the files of `CHECKPOINT_DIR`.  That directory is embedded
as an association list from filenames to parsed file contents. -/

/-- The JSON object written by `save_checkpoint` (lines 132-137). -/
structure CheckpointData where
  data : List TransactionRecord
  seen_hashes : List String
  timestamp : String
  record_count : Nat
deriving DecidableEq, Repr

/-- A checkpoint file's parsed content.  `legacy` is the old format — a bare
JSON list of records (line 158); `modern` is the `{data, seen_hashes,
timestamp, record_count}` object; `corrupt` stands for any file on which
`json.load` (or the subsequent field access) raises, which the `except`
branch at lines 170-172 turns into the absent result. -/
inductive CheckpointContent where
  | legacy (records : List TransactionRecord)
  | modern (cd : CheckpointData)
  | corrupt
deriving DecidableEq, Repr

/-- The checkpoint directory: filenames paired with file contents. -/
abbrev FileSystem := List (String × CheckpointContent)

/-- `os.listdir(CHECKPOINT_DIR)` (line 146). -/
def listdir (fs : FileSystem) : List String := fs.map (·.1)

/-- Reading a named file (line 154): the content stored under the name. -/
def readFile? (fs : FileSystem) (name : String) : Option CheckpointContent :=
  (fs.find? (fun e => e.1 == name)).map (·.2)

/-- `open(name, 'w')` truncates any existing file of the same name and
writes the new content. -/
def writeFile (fs : FileSystem) (name : String) (c : CheckpointContent) :
    FileSystem :=
  (name, c) :: fs.filter (fun e => e.1 != name)

/-- The filename prefix `f'checkpoint_{neighborhood}_'` used both when
saving (line 131) and when filtering in `load_latest_checkpoint`
(line 146). -/
def checkpointNameStart (neighborhood : String) : String :=
  "checkpoint_" ++ neighborhood ++ "_"

/-- The checkpoint filename
`f'checkpoint_{neighborhood}_{timestamp}_{checkpoint_num}.json'`
(line 131). -/
def mkFilename (neighborhood timestamp : String) (checkpoint_num : Nat) :
    String :=
  checkpointNameStart neighborhood ++ timestamp ++ "_"
    ++ Nat.repr checkpoint_num ++ ".json"

/-- `f.startswith(pre)` on strings, via the underlying character lists. -/
def strStartsWith (pre s : String) : Bool :=
  pre.data.isPrefixOf s.data

/-- Python string `<`: lexicographic comparison of the code-point
sequences. -/
def lexLt : List Char → List Char → Bool
  | [], [] => false
  | [], _ :: _ => true
  | _ :: _, [] => false
  | a :: as, b :: bs => if a < b then true else if b < a then false else lexLt as bs

/-- Python `<` on strings. -/
def strLt (a b : String) : Bool := lexLt a.data b.data

/-- Python `max(x, *l)` on strings: fold from the first element, keeping the
earlier value on ties. -/
def pyMax (x : String) (l : List String) : String :=
  l.foldl (fun a b => if strLt a b then b else a) x

/-- `max(checkpoint_files)` over a non-empty list (line 150); `""` is never
returned for the lists this is applied to, which are non-empty by the guard
at line 147. -/
def maxFile : List String → String
  | [] => ""
  | x :: xs => pyMax x xs

/-- `int(latest_checkpoint.split('_')[-1].split('.')[0])` (line 151):
the characters after the last `'_'`, truncated at the first `'.'`, read as a
decimal numeral.  For filenames produced by `mkFilename` this token is the
decimal numeral of the sequence number.  Python's `int` raises on a
non-numeral token (which cannot happen for `mkFilename` names); that failure
mode is outside the scope of the claims and is not modelled — here the
digit fold is simply applied to the token. -/
def parseCheckpointNum (s : String) : Nat :=
  let tok := (s.data.foldl (fun acc c => if c = '_' then [] else acc.concat c) []).takeWhile
    (fun c => c != '.')
  tok.foldl (fun n c => n * 10 + (c.toNat - 48)) 0

/-- The checkpoint filenames that `load_latest_checkpoint` considers for
`neighborhood` (line 146):
`[f for f in os.listdir(CHECKPOINT_DIR) if f.startswith(f'checkpoint_{neighborhood}_')]`. -/
def matchingFiles (fs : FileSystem) (neighborhood : String) : List String :=
  (listdir fs).filter (fun f => strStartsWith (checkpointNameStart neighborhood) f)

/-- `save_checkpoint(data, seen_hashes, checkpoint_num, neighborhood)`
(lines 127-140): writes the snapshot object directly to its final filename
in one `open(..., 'w')` / `json.dump` (lines 138-139); there is no temporary
file and no rename.  `timestamp` stands for
`datetime.now().strftime("%Y%m%d_%H%M%S")` (line 130).  `seen_hashes` is
serialized as `list(seen_hashes)` (line 134), kept here as the list. -/
def save_checkpoint (fs : FileSystem) (data : List TransactionRecord)
    (seen_hashes : List String) (checkpoint_num : Nat)
    (neighborhood timestamp : String) : FileSystem :=
  writeFile fs (mkFilename neighborhood timestamp checkpoint_num)
    (.modern ⟨data, seen_hashes, timestamp, data.length⟩)

/-- The filesystem state in the middle of `save_checkpoint`'s `json.dump`
(lines 138-139): because the dump writes directly to the final path opened
with `'w'`, an interruption at that point leaves a truncated, unparsable
file under the final checkpoint filename. -/
def save_checkpoint_interrupted (fs : FileSystem) (checkpoint_num : Nat)
    (neighborhood timestamp : String) : FileSystem :=
  writeFile fs (mkFilename neighborhood timestamp checkpoint_num) .corrupt

/-- The triple returned by `load_latest_checkpoint`: `data` is `None` or the
record list, then the seen-hash set (as a list, with set semantics given by
membership) and the checkpoint number. -/
structure LoadResult where
  data : Option (List TransactionRecord)
  seen_hashes : List String
  checkpoint_num : Nat
deriving DecidableEq, Repr

/-- `load_latest_checkpoint(neighborhood)` (lines 143-172): filter the
directory listing by the entity's filename prefix; if empty return
`(None, set(), 0)`; otherwise take the `max` filename, parse the checkpoint
number from it, and read the file — a bare list (legacy) yields recomputed
hashes `{create_record_hash(r) for r in data}` (line 161), the modern object
yields its `data` and `seen_hashes` fields, and a parse failure yields
`(None, set(), 0)` via the `except` branch. -/
def load_latest_checkpoint (fs : FileSystem) (neighborhood : String) :
    LoadResult :=
  if matchingFiles fs neighborhood = [] then ⟨none, [], 0⟩
  else
    match readFile? fs (maxFile (matchingFiles fs neighborhood)) with
    | some (.legacy data) =>
      ⟨some data, data.map create_record_hash,
        parseCheckpointNum (maxFile (matchingFiles fs neighborhood))⟩
    | some (.modern cd) =>
      ⟨some cd.data, cd.seen_hashes,
        parseCheckpointNum (maxFile (matchingFiles fs neighborhood))⟩
    | some .corrupt => ⟨none, [], 0⟩
    | none => ⟨none, [], 0⟩

/-- The snapshot `load_latest_checkpoint` derives from the named file's
content (the two format branches at lines 157-165 plus the `except`
branch). -/
def renderContent (name : String) : CheckpointContent → LoadResult
  | .legacy data => ⟨some data, data.map create_record_hash, parseCheckpointNum name⟩
  | .modern cd => ⟨some cd.data, cd.seen_hashes, parseCheckpointNum name⟩
  | .corrupt => ⟨none, [], 0⟩

/-! ## Per-entity crawl (`process_neighborhood`, lines 220-431)

The browser-driven parts are embedded as data: a `Session` records whether
the initial page load and the search succeed, and the sequence of page
outcomes.  A `RawRow` carries the already-extracted base fields (the
`base_row_data` dict after the `update` at lines 329-333) and the expanded
detail cells passed to `extract_multiple_transactions`.  `PageStep.raise`
models an exception that escapes every inner handler and reaches the outer
`except Exception` at lines 423-425 (for example a dead browser raising a
non-`StaleElementReferenceException` error from `find_elements` at line 271,
whose retry loop catches only `StaleElementReferenceException`). -/

/-- One table row: extracted base fields plus expanded detail cells. -/
structure RawRow where
  base : TransactionRecord
  features : List String
deriving DecidableEq, Repr

/-- Outcome of one iteration of the page loop. -/
inductive PageStep where
  | rows (page : List RawRow)
  | raise
deriving DecidableEq, Repr

/-- What the browser session yields for one entity. -/
structure Session where
  initLoadOk : Bool
  searchOk : Bool
  pages : List PageStep
deriving Repr

/-- `CHECKPOINT_INTERVAL = 100` (line 36). -/
def CHECKPOINT_INTERVAL : Nat := 100

/-- `MAX_PAGES = 100` (line 40). -/
def MAX_PAGES : Nat := 100

/-- The mutable state of `process_neighborhood`'s crawl: the checkpoint
directory plus `all_data`, `seen_hashes`, `checkpoint_num`,
`records_since_last_checkpoint`, `duplicates_found`,
`new_records_this_session` (lines 228-257). -/
structure CrawlState where
  fs : FileSystem
  all_data : List TransactionRecord
  seen_hashes : List String
  checkpoint_num : Nat
  records_since : Nat
  duplicates : Nat
  new_records : Nat
deriving DecidableEq, Repr

/-- The per-transaction dedup step (lines 347-359): hash the transaction;
if the hash was seen, count a duplicate and discard; otherwise append the
record, add the hash, and bump the counters.  `seen_hashes` is a Python set;
it is kept as a list with set semantics given by membership. -/
def dedupStep (st : CrawlState) (t : TransactionRecord) : CrawlState :=
  let record_hash := create_record_hash t
  if record_hash ∈ st.seen_hashes then
    { st with duplicates := st.duplicates + 1 }
  else
    { st with all_data := st.all_data ++ [t],
              seen_hashes := record_hash :: st.seen_hashes,
              records_since := st.records_since + 1,
              new_records := st.new_records + 1 }

/-- Processing one row (lines 293-365): extract all of its transactions,
run the dedup step on each, then save a checkpoint if the since-last-save
counter reached `CHECKPOINT_INTERVAL` (lines 361-365).  Rows skipped by the
row-level `except`/`continue` and rows without a collapse arrow simply do
not appear in the page's row list. -/
def processRow (neighborhood : String) (tsFn : Nat → String)
    (st : CrawlState) (row : RawRow) : CrawlState :=
  let st1 := (extract_multiple_transactions row.features row.base).foldl dedupStep st
  if CHECKPOINT_INTERVAL ≤ st1.records_since then
    let n := st1.checkpoint_num + 1
    { st1 with
        fs := save_checkpoint st1.fs st1.all_data st1.seen_hashes n neighborhood (tsFn n),
        checkpoint_num := n,
        records_since := 0 }
  else st1

/-- One page's row loop (line 293). -/
def processPage (neighborhood : String) (tsFn : Nat → String)
    (st : CrawlState) (page : List RawRow) : CrawlState :=
  page.foldl (processRow neighborhood tsFn) st

/-- The pagination loop (lines 259-395).  A `rows` step is one extracted
page; a `raise` step is an exception escaping to the outer handler, which
returns `(current filesystem, 0)` — `return 0` at line 425, with no further
save.  When the steps run out (no next button, or a page fails to load) the
loop ends normally with the current state. -/
def crawlLoop (neighborhood : String) (tsFn : Nat → String) :
    CrawlState → List PageStep → CrawlState ⊕ (FileSystem × Nat)
  | st, [] => .inl st
  | st, .raise :: _ => .inr (st.fs, 0)
  | st, .rows page :: rest =>
    crawlLoop neighborhood tsFn (processPage neighborhood tsFn st page) rest

/-- The state after `load_latest_checkpoint` and the `None` fallback
(lines 228-232): loaded records, loaded hashes, loaded checkpoint number,
all counters zero. -/
def initState (fs : FileSystem) (neighborhood : String) : CrawlState :=
  let lr := load_latest_checkpoint fs neighborhood
  ⟨fs, lr.data.getD [], lr.seen_hashes, lr.checkpoint_num, 0, 0, 0⟩

/-- The identity-field tuple used by the final
`df.drop_duplicates(subset=['כתובת', 'תאריך עסקה', 'מחיר', 'גוש/חלקה/תת-חלקה'])`
(line 406). -/
def identityKey (r : TransactionRecord) : String × String × String × String :=
  (r.address, r.transactionDate, r.price, r.parcelRef)

/-- `drop_duplicates` keeping the first occurrence of each identity key. -/
def dropDuplicatesAux :
    List TransactionRecord → List (String × String × String × String) →
    List TransactionRecord
  | [], _ => []
  | r :: rs, ks =>
    if identityKey r ∈ ks then dropDuplicatesAux rs ks
    else r :: dropDuplicatesAux rs (identityKey r :: ks)

/-- The export-time dedup of line 406. -/
def drop_duplicates (l : List TransactionRecord) : List TransactionRecord :=
  dropDuplicatesAux l []

/-- `process_neighborhood(neighborhood)` (lines 220-431), returning the
resulting checkpoint directory and the returned record count.  Control flow
of the source: load the latest checkpoint (line 228); if the initial page
load fails return `len(all_data)` (line 246); if the search fails return
`len(all_data)` (line 251); run the pagination loop over at most `MAX_PAGES`
pages; an exception reaching the outer handler returns `0` (line 425)
without any further save; otherwise save a final checkpoint if unsaved
records remain (lines 397-400) and return `len(df_unique)` (line 418), or
`0` when nothing was collected (line 421).  `tsFn n` stands for the
`datetime.now()` timestamp taken by the save that writes checkpoint `n`. -/
def process_neighborhood (fs : FileSystem) (tsFn : Nat → String)
    (neighborhood : String) (s : Session) : FileSystem × Nat :=
  let st0 := initState fs neighborhood
  if s.initLoadOk = false then (fs, st0.all_data.length)
  else if s.searchOk = false then (fs, st0.all_data.length)
  else
    match crawlLoop neighborhood tsFn st0 (s.pages.take MAX_PAGES) with
    | .inr r => r
    | .inl st =>
      let st' :=
        if 0 < st.records_since then
          let n := st.checkpoint_num + 1
          { st with
              fs := save_checkpoint st.fs st.all_data st.seen_hashes n neighborhood (tsFn n),
              checkpoint_num := n,
              records_since := 0 }
        else st
      if st'.all_data = [] then (st'.fs, 0)
      else (st'.fs, (drop_duplicates st'.all_data).length)

/-! ## Heap model of the extractor's copy discipline

In the Python, `base_row_data` and each emitted transaction are dicts —
mutable objects.  `extract_multiple_transactions` touches them only through
`base_row_data.copy()` (lines 97 and 113) followed by key assignments on the
fresh copy (lines 117 and 119).  To state that the extractor never mutates
its input and that its outputs do not alias each other or the base, the
dicts are given an explicit heap: a list of record cells addressed by
index, where allocation appends a cell. -/

/-- The heap of record objects; a reference is an index into the list. -/
abbrev Heap := List TransactionRecord

/-- Dereference (reads of the dict behind a reference). -/
def heapGet (h : Heap) (r : Nat) : TransactionRecord := h.getD r default

/-- `dict.copy()`: allocate a fresh cell holding the copied value. -/
def allocCopy (h : Heap) (src : TransactionRecord) : Heap × Nat :=
  (h ++ [src], h.length)

/-- The while loop of `extract_multiple_transactions` on the heap
(lines 100-122): each iteration allocates `additional_transaction =
base_row_data.copy()` (line 113) and performs the two conditional key
assignments (lines 116-119) on that fresh cell, collecting the emitted
references in order. -/
def extractLoopST (features : List String) (baseRef : Nat) :
    Nat → Nat → Heap → Heap × List Nat
  | _, 0, h => (h, [])
  | i, fuel + 1, h =>
    let d := safe_get features (8 + 2 * i)
    let p := safe_get features (9 + 2 * i)
    if d = "" ∧ p = "" then (h, [])
    else
      let a1 := allocCopy h (heapGet h baseRef)
      let h2 := if d = "" then a1.1
        else a1.1.set a1.2 { heapGet a1.1 a1.2 with transactionDate := d }
      let h3 := if p = "" then h2
        else h2.set a1.2 { heapGet h2 a1.2 with price := p }
      let rec1 := extractLoopST features baseRef (i + 1) fuel h3
      (rec1.1, a1.2 :: rec1.2)

/-- `extract_multiple_transactions` on the heap: line 97 allocates the copy
of the base row, then the loop runs; the returned references list the
emitted transaction objects in order. -/
def extract_multiple_transactions_st (features : List String)
    (baseRef : Nat) (h : Heap) : Heap × List Nat :=
  let a0 := allocCopy h (heapGet h baseRef)
  let rec1 := extractLoopST features baseRef 0 (features.length + 1) a0.1
  (rec1.1, a0.2 :: rec1.2)

/-- All transactions produced from one page's rows, in page order (the
extraction at line 336 feeding the loop at line 348). -/
def pageTransactions (page : List RawRow) : List TransactionRecord :=
  page.flatMap (fun row => extract_multiple_transactions row.features row.base)

/-! ## Concrete example inputs used by witnesses and counterexamples -/

/-- A sample record. -/
def exRecord : TransactionRecord :=
  ⟨"addr0", "80", "2024-01-01", "100", "1-2-3", "flat", "3", "2", "1990", "10", "5"⟩

/-- A second sample record with a different identity. -/
def exRecord2 : TransactionRecord :=
  ⟨"addr1", "90", "2024-02-01", "200", "4-5-6", "flat", "4", "3", "1995", "11", "6"⟩

/-- Hash-collision exhibit: address `a-b`, transaction date `c`. -/
def cexHashA : TransactionRecord := ⟨"a-b", "", "c", "p", "g", "", "", "", "", "", ""⟩

/-- Hash-collision exhibit: address `a`, transaction date `b-c`; the
hyphen-joined key string coincides with `cexHashA`'s. -/
def cexHashB : TransactionRecord := ⟨"a", "", "b-c", "p", "g", "", "", "", "", "", ""⟩

/-- Detail cells with two fully non-empty additional `(date, price)`
pairs at indices 8-11. -/
def exFeatures : List String :=
  ["c0", "c1", "c2", "c3", "c4", "c5", "c6", "c7", "d0", "p0", "d1", "p1"]

/-- Detail cells whose final pair is only partially present (a date with no
price cell). -/
def exFeaturesPartial : List String :=
  ["c0", "c1", "c2", "c3", "c4", "c5", "c6", "c7", "d0"]

/-- A store holding checkpoint 9 of entity `n`, saved in some second. -/
def exStoreC1 : FileSystem :=
  [("checkpoint_n_20240101_120000_9.json", .modern ⟨[], [], "20240101_120000", 0⟩)]

/-- A store holding checkpoints 10 and 2 of entity `n` with the same
timestamp; the filename of checkpoint 2 sorts lexicographically after the
filename of checkpoint 10. -/
def exStoreC5 : FileSystem :=
  [("checkpoint_n_20240101_120000_10.json",
      .modern ⟨[exRecord], [create_record_hash exRecord], "20240101_120000", 1⟩),
   ("checkpoint_n_20240101_120000_2.json", .modern ⟨[], [], "20240101_120000", 0⟩)]

/-- A store holding one legacy-format checkpoint of entity `n`. -/
def exStoreC6 : FileSystem :=
  [("checkpoint_n_20240101_120000_1.json", .legacy [exRecord])]

/-- A store holding one good modern checkpoint of entity `n` with one
record. -/
def exStoreA : FileSystem :=
  [("checkpoint_n_20240101_120000_1.json",
      .modern ⟨[exRecord], [create_record_hash exRecord], "20240101_120000", 1⟩)]

/-- A fixed timestamp source for the crawl examples. -/
def exTsFn : Nat → String := fun _ => "20240101_120001"

/-- A session that yields one page with one fresh row and then dies with an
exception that reaches the outer handler. -/
def sessRaise : Session := ⟨true, true, [.rows [⟨exRecord2, []⟩], .raise]⟩

/-- A session that yields one page with one fresh row and then ends
normally. -/
def sessDone : Session := ⟨true, true, [.rows [⟨exRecord2, []⟩]]⟩

/-! # Theorems -/

/-! ## Extraction: termination and characterization -/

theorem stripStr_empty : stripStr "" = "" := rfl

theorem safe_get_oob (features : List String) (idx : Nat)
    (h : features.length ≤ idx) : safe_get features idx = "" := by
  unfold safe_get
  rw [List.getD_eq_default _ _ h]
  exact stripStr_empty

theorem pairEmpty_of_le (features : List String) (i : Nat)
    (h : features.length ≤ 8 + 2 * i) : pairEmpty features i :=
  ⟨safe_get_oob _ _ h, safe_get_oob _ _ (by omega)⟩

theorem pairEmpty_length (features : List String) :
    pairEmpty features features.length :=
  pairEmpty_of_le _ _ (by omega)

theorem extractLoop_eq (features : List String) (base : TransactionRecord) :
    ∀ (n i fuel : Nat), n < fuel →
      (∀ k, k < n → ¬ pairEmpty features (i + k)) →
      pairEmpty features (i + n) →
      extractLoop features base i fuel
        = (List.range n).map (fun k =>
            overrideTxn base (safe_get features (8 + 2 * (i + k)))
              (safe_get features (9 + 2 * (i + k)))) := by
  intro n
  induction n with
  | zero =>
    intro i fuel hfuel _ hstop
    match fuel, hfuel with
    | fuel + 1, _ =>
      simp only [extractLoop, List.range_zero, List.map_nil]
      rw [if_pos]
      simpa using hstop
  | succ n ih =>
    intro i fuel hfuel hmin hstop
    match fuel, hfuel with
    | fuel + 1, hfuel =>
      have hne : ¬ pairEmpty features i := by
        have := hmin 0 (by omega)
        simpa using this
      simp only [extractLoop]
      rw [if_neg (by simpa [pairEmpty] using hne)]
      have ihe := ih (i + 1) fuel (by omega)
        (fun k hk => by
          have := hmin (k + 1) (by omega)
          simpa [Nat.add_assoc, Nat.add_comm 1 k] using this)
        (by simpa [Nat.add_assoc, Nat.add_comm 1 n] using hstop)
      rw [ihe, List.range_succ_eq_map]
      simp only [List.map_cons, List.map_map, Nat.add_zero]
      refine congrArg₂ _ rfl ?_
      refine List.map_congr_left fun k _ => ?_
      simp only [Function.comp_apply]
      have h1 : i + 1 + k = i + (k + 1) := by omega
      rw [h1]

theorem firstStop_exists (features : List String) :
    ∃ n, n ≤ features.length ∧ (∀ k, k < n → ¬ pairEmpty features k) ∧
      pairEmpty features n := by
  have hex : ∃ n, pairEmpty features n := ⟨_, pairEmpty_length features⟩
  exact ⟨Nat.find hex, Nat.find_min' hex (pairEmpty_length features),
    fun k hk => Nat.find_min hex hk, Nat.find_spec hex⟩

theorem extract_eq_of_stop (features : List String) (base : TransactionRecord)
    (n : Nat) (hmin : ∀ k, k < n → ¬ pairEmpty features k)
    (hstop : pairEmpty features n) :
    extract_multiple_transactions features base
      = base :: (List.range n).map (fun k =>
          overrideTxn base (safe_get features (8 + 2 * k))
            (safe_get features (9 + 2 * k))) := by
  have hle : n ≤ features.length := by
    by_contra hgt
    exact hmin features.length (by omega) (pairEmpty_length features)
  unfold extract_multiple_transactions
  have := extractLoop_eq features base n 0 (features.length + 1) (by omega)
    (fun k hk => by simpa using hmin k hk) (by simpa using hstop)
  rw [this]
  simp [Nat.zero_add]

/-- C3: `extract_multiple_transactions` returns a non-empty list whose first
element is the base record, followed by one overridden copy of the base
record per pair index, in increasing order, up to (excluding) the first pair
whose date and price are both empty; an empty value in a pair leaves the
base value in place (`overrideTxn`).  With two fully non-empty extra pairs
followed by an empty pair it returns exactly the three records
`[base, override by pair 0, override by pair 1]`. -/
theorem extract_multiple_transactions_spec (features : List String)
    (base : TransactionRecord) :
    (∃ n, (∀ k, k < n → ¬ pairEmpty features k) ∧ pairEmpty features n ∧
        extract_multiple_transactions features base
          = base :: (List.range n).map (fun k =>
              overrideTxn base (safe_get features (8 + 2 * k))
                (safe_get features (9 + 2 * k))))
    ∧ (safe_get features 8 ≠ "" → safe_get features 9 ≠ "" →
       safe_get features 10 ≠ "" → safe_get features 11 ≠ "" →
       pairEmpty features 2 →
       extract_multiple_transactions features base
         = [base,
            overrideTxn base (safe_get features 8) (safe_get features 9),
            overrideTxn base (safe_get features 10) (safe_get features 11)]) := by
  constructor
  · obtain ⟨n, _, hmin, hstop⟩ := firstStop_exists features
    exact ⟨n, hmin, hstop, extract_eq_of_stop features base n hmin hstop⟩
  · intro h8 h9 h10 h11 hstop
    have hmin : ∀ k, k < 2 → ¬ pairEmpty features k := by
      intro k hk
      interval_cases k
      · exact fun hp => h8 hp.1
      · exact fun hp => by
          have : safe_get features (8 + 2 * 1) = "" := hp.1
          norm_num at this
          exact h10 this
    have := extract_eq_of_stop features base 2 hmin hstop
    rw [this]
    norm_num [List.range_succ]

/-- C3 witness: on concrete detail cells with two extra pairs, the theorem
yields the three-record expansion. -/
theorem extract_multiple_transactions_spec_witness :
    extract_multiple_transactions exFeatures exRecord
      = [exRecord,
         overrideTxn exRecord (safe_get exFeatures 8) (safe_get exFeatures 9),
         overrideTxn exRecord (safe_get exFeatures 10) (safe_get exFeatures 11)] :=
  (extract_multiple_transactions_spec exFeatures exRecord).2
    (by decide) (by decide) (by decide) (by decide) (by decide)

/-- C9: the expansion loop always terminates — reads past the end of the
feature list yield `""` (`safe_get`, lines 88-89), so a fully-empty pair
exists no later than index `features.length`; the loop stops at the first
such pair, and every earlier pair, including a partially present final one,
is emitted with whichever value is present. -/
theorem extract_multiple_transactions_terminates (features : List String)
    (base : TransactionRecord) :
    (∀ idx, features.length ≤ idx → safe_get features idx = "")
    ∧ ∃ n, n ≤ features.length
        ∧ (extract_multiple_transactions features base).length = n + 1
        ∧ (∀ k, k < n → ¬ pairEmpty features k)
        ∧ pairEmpty features n
        ∧ (∀ k, k < n →
            (extract_multiple_transactions features base).getD (k + 1) default
              = overrideTxn base (safe_get features (8 + 2 * k))
                  (safe_get features (9 + 2 * k))) := by
  refine ⟨fun idx h => safe_get_oob features idx h, ?_⟩
  obtain ⟨n, hle, hmin, hstop⟩ := firstStop_exists features
  have heq := extract_eq_of_stop features base n hmin hstop
  refine ⟨n, hle, ?_, hmin, hstop, ?_⟩
  · rw [heq]; simp
  · intro k hk
    rw [heq]
    have hlen : k < ((List.range n).map (fun k =>
        overrideTxn base (safe_get features (8 + 2 * k))
          (safe_get features (9 + 2 * k)))).length := by
      simpa using hk
    simp only [List.getD_cons_succ]
    rw [List.getD_eq_getElem _ _ hlen]
    simp

/-- C9 witness: the theorem instantiated at detail cells whose final pair is
partially present. -/
theorem extract_multiple_transactions_terminates_witness :
    (∀ idx, exFeaturesPartial.length ≤ idx → safe_get exFeaturesPartial idx = "")
    ∧ ∃ n, n ≤ exFeaturesPartial.length
        ∧ (extract_multiple_transactions exFeaturesPartial exRecord).length = n + 1
        ∧ (∀ k, k < n → ¬ pairEmpty exFeaturesPartial k)
        ∧ pairEmpty exFeaturesPartial n
        ∧ (∀ k, k < n →
            (extract_multiple_transactions exFeaturesPartial exRecord).getD (k + 1) default
              = overrideTxn exRecord (safe_get exFeaturesPartial (8 + 2 * k))
                  (safe_get exFeaturesPartial (9 + 2 * k))) :=
  extract_multiple_transactions_terminates exFeaturesPartial exRecord

/-! ## The record hash (C2) -/

theorem string_ext_of_data {s t : String} (h : s.data = t.data) : s = t := by
  cases s; cases t; exact congrArg String.mk h

/-- C2 counterexample: the claim says records differing in an identity field
always hash differently, but the key string joins the four fields with `-`,
so `("a-b", "c", "p", "g")` and `("a", "b-c", "p", "g")` — which differ in
both `address` and `transactionDate` — produce the identical key string
`"a-b-c-p-g"` and hence the identical MD5 digest. -/
theorem create_record_hash_collision :
    cexHashA.address ≠ cexHashB.address
    ∧ cexHashA.transactionDate ≠ cexHashB.transactionDate
    ∧ cexHashA.price = cexHashB.price
    ∧ cexHashA.parcelRef = cexHashB.parcelRef
    ∧ create_record_hash cexHashA = create_record_hash cexHashB := by
  refine ⟨by decide, by decide, rfl, rfl, ?_⟩
  decide

/-- C2 (amended): the record hash factors through the four identity fields —
records agreeing on `address`, `transactionDate`, `price` and `parcelRef`
hash identically regardless of every other field (in particular,
`propertyType` alone never changes the hash), and changing `price` alone
always changes the key string (hence the digest, up to MD5 collisions); but
records differing in identity fields may still hash identically when
hyphens inside field values make the joined key strings coincide. -/
theorem create_record_hash_factors (r₁ r₂ : TransactionRecord) :
    (r₁.address = r₂.address → r₁.transactionDate = r₂.transactionDate →
      r₁.price = r₂.price → r₁.parcelRef = r₂.parcelRef →
      create_record_hash r₁ = create_record_hash r₂)
    ∧ (∀ p, create_record_hash { r₁ with propertyType := p }
        = create_record_hash r₁)
    ∧ (∀ p, p ≠ r₁.price →
        create_record_hash { r₁ with price := p } ≠ create_record_hash r₁) := by
  refine ⟨?_, fun p => rfl, ?_⟩
  · intro h1 h2 h3 h4
    simp [create_record_hash, h1, h2, h3, h4]
  · intro p hp heq
    apply hp
    have hdata := congrArg String.data heq
    simp only [create_record_hash, String.data_append] at hdata
    have h1 := List.append_cancel_right hdata
    have h2 := List.append_cancel_right h1
    have h3 := List.append_cancel_left h2
    exact string_ext_of_data h3

/-- C2 witness: the amended theorem at a concrete record — changing
`propertyType` keeps the hash, changing `price` changes it. -/
theorem create_record_hash_factors_witness :
    create_record_hash { exRecord with propertyType := "house" }
        = create_record_hash exRecord
    ∧ create_record_hash { exRecord with price := "999" }
        ≠ create_record_hash exRecord :=
  ⟨(create_record_hash_factors exRecord exRecord).2.1 "house",
   (create_record_hash_factors exRecord exRecord).2.2 "999" (by decide)⟩

/-! ## Lexicographic string order: basic facts -/

theorem lexLt_irrefl : ∀ l : List Char, lexLt l l = false := by
  intro l
  induction l with
  | nil => rfl
  | cons a as ih => simp [lexLt, ih]

theorem lexLt_trans : ∀ {a b c : List Char},
    lexLt a b = true → lexLt b c = true → lexLt a c = true := by
  intro a
  induction a with
  | nil =>
    intro b c hab hbc
    match b, c with
    | [], _ => simp [lexLt] at hab
    | _ :: _, [] => simp [lexLt] at hbc
    | _ :: _, _ :: _ => simp [lexLt]
  | cons x xs ih =>
    intro b c hab hbc
    match b, c with
    | [], _ => simp [lexLt] at hab
    | _ :: _, [] => simp [lexLt] at hbc
    | y :: ys, z :: zs =>
      simp only [lexLt] at hab hbc ⊢
      rcases lt_trichotomy x y with hxy | hxy | hxy
      · rcases lt_trichotomy y z with hyz | hyz | hyz
        · rw [if_pos (lt_trans hxy hyz)]
        · subst hyz
          rw [if_pos hxy]
        · rw [if_neg (not_lt.mpr (le_of_lt hyz)), if_pos hyz] at hbc
          simp at hbc
      · subst hxy
        rw [if_neg (lt_irrefl x), if_neg (lt_irrefl x)] at hab
        rcases lt_trichotomy x z with hxz | hxz | hxz
        · rw [if_pos hxz]
        · subst hxz
          rw [if_neg (lt_irrefl x), if_neg (lt_irrefl x)] at hbc ⊢
          exact ih hab hbc
        · rw [if_neg (not_lt.mpr (le_of_lt hxz)), if_pos hxz] at hbc
          simp at hbc
      · rw [if_neg (not_lt.mpr (le_of_lt hxy)), if_pos hxy] at hab
        simp at hab

theorem lexLt_total : ∀ {a b : List Char},
    lexLt a b = false → lexLt b a = false → a = b := by
  intro a
  induction a with
  | nil =>
    intro b hab _
    match b with
    | [] => rfl
    | _ :: _ => simp [lexLt] at hab
  | cons x xs ih =>
    intro b hab hba
    match b with
    | [] => simp [lexLt] at hba
    | y :: ys =>
      simp only [lexLt] at hab hba
      rcases lt_trichotomy x y with hxy | hxy | hxy
      · rw [if_pos hxy] at hab
        simp at hab
      · subst hxy
        rw [if_neg (lt_irrefl x), if_neg (lt_irrefl x)] at hab hba
        rw [ih hab hba]
      · rw [if_pos hxy] at hba
        simp at hba

theorem lexLt_asymm : ∀ {a b : List Char},
    lexLt a b = true → lexLt b a = false := by
  intro a b hab
  by_contra hba
  rw [Bool.not_eq_false] at hba
  have h := lexLt_trans hab hba
  rw [lexLt_irrefl] at h
  simp at h

theorem strLt_irrefl (a : String) : strLt a a = false := lexLt_irrefl a.data

theorem strLt_trans {a b c : String} (h1 : strLt a b = true)
    (h2 : strLt b c = true) : strLt a c = true := lexLt_trans h1 h2

theorem strLt_asymm {a b : String} (h : strLt a b = true) :
    strLt b a = false := lexLt_asymm h

theorem strLt_total {a b : String} (hab : strLt a b = false)
    (hba : strLt b a = false) : a = b :=
  string_ext_of_data (lexLt_total hab hba)

/-- From `b ≤ a` and `x ≤ b` conclude `x ≤ a` (in terms of `strLt` being
false). -/
theorem strLt_le_trans {a b x : String} (h1 : strLt a b = false)
    (h2 : strLt b x = false) : strLt a x = false := by
  by_contra hax
  rw [Bool.not_eq_false] at hax
  rcases Bool.eq_false_or_eq_true (strLt b a) with hba | hba
  · have hbx : strLt b x = true := strLt_trans hba hax
    rw [h2] at hbx
    simp at hbx
  · have hab : a = b := strLt_total h1 hba
    subst hab
    rw [hax] at h2
    simp at h2

theorem pyMax_cases : ∀ (l : List String) (x : String),
    pyMax x l = x ∨ pyMax x l ∈ l := by
  intro l
  induction l with
  | nil => exact fun x => Or.inl rfl
  | cons b bs ih =>
    intro x
    have hrw : pyMax x (b :: bs) = pyMax (if strLt x b then b else x) bs := rfl
    rcases ih (if strLt x b then b else x) with h | h
    · rw [hrw, h]
      split_ifs with hc
      · exact Or.inr (List.mem_cons_self b bs)
      · exact Or.inl rfl
    · rw [hrw]
      exact Or.inr (List.mem_cons_of_mem b h)

/-- No candidate strictly exceeds the Python `max`. -/
theorem pyMax_not_lt : ∀ (l : List String) (x y : String),
    (y = x ∨ y ∈ l) → strLt (pyMax x l) y = false := by
  intro l
  induction l with
  | nil =>
    intro x y hy
    rcases hy with rfl | hy
    · exact strLt_irrefl y
    · simp at hy
  | cons b bs ih =>
    intro x y hy
    have hrw : pyMax x (b :: bs) = pyMax (if strLt x b then b else x) bs := rfl
    have hstep : ∀ z, z = x ∨ z = b →
        strLt (if strLt x b then b else x) z = false := by
      intro z hz
      rcases hz with rfl | rfl
      · split_ifs with hc
        · exact strLt_asymm hc
        · exact strLt_irrefl z
      · split_ifs with hc
        · exact strLt_irrefl z
        · rw [Bool.not_eq_true] at hc
          exact hc
    have hself := ih (if strLt x b then b else x) (if strLt x b then b else x)
      (Or.inl rfl)
    rw [hrw]
    rcases hy with rfl | hy
    · exact strLt_le_trans hself (hstep y (Or.inl rfl))
    · rcases List.mem_cons.mp hy with rfl | hy
      · exact strLt_le_trans hself (hstep y (Or.inr rfl))
      · exact ih (if strLt x b then b else x) y (Or.inr hy)

/-- If every other candidate is strictly below `x`, the Python `max` is
`x`. -/
theorem pyMax_eq_of_dominant (l : List String) (x : String)
    (h : ∀ y ∈ l, strLt y x = true) : pyMax x l = x := by
  rcases pyMax_cases l x with he | hm
  · exact he
  · have h1 := h _ hm
    have h2 := pyMax_not_lt l x x (Or.inl rfl)
    rw [h1] at h2
    simp at h2

/-! ## Checkpoint store lemmas -/

theorem readFile_of_nodup : ∀ (fs : FileSystem) (name : String)
    (c : CheckpointContent), (listdir fs).Nodup → (name, c) ∈ fs →
    readFile? fs name = some c := by
  intro fs
  induction fs with
  | nil => intro name c _ hmem; simp at hmem
  | cons e rest ih =>
    intro name c hnd hmem
    have hnd' : (∀ x, (e.1, x) ∉ rest) ∧ (List.map (fun x => x.1) rest).Nodup := by
      simpa [listdir] using hnd
    rcases List.mem_cons.mp hmem with rfl | hmem'
    · simp [readFile?, List.find?]
    · by_cases he : e.1 = name
      · refine absurd ?_ (hnd'.1 c)
        rw [he]
        exact hmem'
      · have hbeq : (e.1 == name) = false := by
          simpa using he
        simp only [readFile?, List.find?, hbeq]
        exact ih name c hnd'.2 hmem'

theorem readFile_writeFile_self (fs : FileSystem) (name : String)
    (c : CheckpointContent) : readFile? (writeFile fs name c) name = some c := by
  simp [readFile?, writeFile, List.find?]

theorem isPrefixOf_append : ∀ (l m : List Char), l.isPrefixOf (l ++ m) = true := by
  intro l m
  induction l with
  | nil => cases m <;> rfl
  | cons a as ih => simp [List.isPrefixOf, ih]

theorem mkFilename_matches (neighborhood timestamp : String)
    (checkpoint_num : Nat) :
    strStartsWith (checkpointNameStart neighborhood)
      (mkFilename neighborhood timestamp checkpoint_num) = true := by
  have hdata : (mkFilename neighborhood timestamp checkpoint_num).data
      = (checkpointNameStart neighborhood).data
        ++ (timestamp ++ "_" ++ Nat.repr checkpoint_num ++ ".json").data := by
    simp [mkFilename, String.data_append]
  rw [strStartsWith, hdata]
  exact isPrefixOf_append _ _

theorem matchingFiles_writeFile (fs : FileSystem) (name : String)
    (c : CheckpointContent) (neighborhood : String)
    (hpre : strStartsWith (checkpointNameStart neighborhood) name = true) :
    matchingFiles (writeFile fs name c) neighborhood
      = name :: matchingFiles (fs.filter (fun e => e.1 != name)) neighborhood := by
  simp [matchingFiles, listdir, writeFile, List.filter_cons, hpre]

theorem matchingFiles_filter_subset (fs : FileSystem)
    (q : String × CheckpointContent → Bool) (neighborhood : String) :
    ∀ y ∈ matchingFiles (fs.filter q) neighborhood,
      y ∈ matchingFiles fs neighborhood := by
  intro y hy
  simp only [matchingFiles, listdir, List.mem_filter, List.mem_map] at hy ⊢
  obtain ⟨⟨e, he, rfl⟩, hmatch⟩ := hy
  exact ⟨⟨e, he.1, rfl⟩, hmatch⟩

theorem matchingFiles_subset_listdir (fs : FileSystem) (neighborhood : String) :
    ∀ y ∈ matchingFiles fs neighborhood, y ∈ listdir fs := by
  intro y hy
  exact (List.mem_filter.mp hy).1

/-- When a freshly written file's name has the entity's prefix and sorts
strictly after every matching file of the store, loading right after the
write reads exactly the new file's content. -/
theorem load_after_write (fs : FileSystem) (name : String)
    (c : CheckpointContent) (nbhd : String)
    (hpre : strStartsWith (checkpointNameStart nbhd) name = true)
    (hfresh : ∀ f ∈ matchingFiles fs nbhd, strLt f name = true) :
    load_latest_checkpoint (writeFile fs name c) nbhd
      = renderContent name c := by
  have hmf := matchingFiles_writeFile fs name c nbhd hpre
  have hdom : ∀ y ∈ matchingFiles (fs.filter (fun e => e.1 != name)) nbhd,
      strLt y name = true :=
    fun y hy => hfresh y (matchingFiles_filter_subset fs _ nbhd y hy)
  have hmax : maxFile (matchingFiles (writeFile fs name c) nbhd) = name := by
    rw [hmf, maxFile]
    exact pyMax_eq_of_dominant _ _ hdom
  have hne : matchingFiles (writeFile fs name c) nbhd ≠ [] := by
    rw [hmf]
    exact List.cons_ne_nil _ _
  unfold load_latest_checkpoint
  rw [if_neg hne, hmax, readFile_writeFile_self]
  cases c <;> rfl

/-! ## C1: checkpoint save/load round trip -/

/-- C1 counterexample: saving checkpoint 10 while checkpoint 9 from the same
second is on disk makes `load_latest_checkpoint` return the *old* snapshot,
because `"..._9.json"` sorts lexicographically after `"..._10.json"`; and the
saved `seen_hashes` is whatever set the caller passes, so nothing forces it
to cover the records' hashes.  Right after
`save(records=[exRecord], seenHashes={hash(exRecord)}, 10)` the loaded
snapshot has `records = [] ≠ [exRecord]` and its seen-hash set misses
`hash(exRecord)`. -/
theorem save_load_roundtrip_fails :
    load_latest_checkpoint
        (save_checkpoint exStoreC1 [exRecord] [create_record_hash exRecord]
          10 "n" "20240101_120000") "n"
      = ⟨some [], [], 9⟩
    ∧ (some [] : Option (List TransactionRecord)) ≠ some [exRecord]
    ∧ create_record_hash exRecord ∉ ([] : List String) := by
  refine ⟨by decide, by decide, by decide⟩

/-- C1 (amended): if the caller's seen-hash set contains the hash of every
record being saved (as `process_neighborhood` maintains) and the new
snapshot's filename sorts lexicographically after every existing checkpoint
filename of the entity (fresh, strictly later timestamp — or equal timestamp
with a sequence number whose decimal string sorts after), then `loadLatest`
immediately after `save(R, H, n)` returns exactly records `R`, seen-hashes
`H` and number `n`, and the seen-hash superset invariant holds. -/
theorem save_load_roundtrip (fs : FileSystem) (R : List TransactionRecord)
    (H : List String) (num : Nat) (nbhd ts : String)
    (hsub : ∀ r ∈ R, create_record_hash r ∈ H)
    (hfresh : ∀ f ∈ matchingFiles fs nbhd,
      strLt f (mkFilename nbhd ts num) = true)
    (hparse : parseCheckpointNum (mkFilename nbhd ts num) = num) :
    load_latest_checkpoint (save_checkpoint fs R H num nbhd ts) nbhd
      = ⟨some R, H, num⟩
    ∧ ∀ r ∈ R, create_record_hash r ∈
        (load_latest_checkpoint (save_checkpoint fs R H num nbhd ts) nbhd).seen_hashes := by
  have hload := load_after_write fs (mkFilename nbhd ts num)
    (.modern ⟨R, H, ts, R.length⟩) nbhd (mkFilename_matches nbhd ts num) hfresh
  rw [renderContent, hparse] at hload
  rw [save_checkpoint]
  exact ⟨hload, fun r hr => by rw [hload]; exact hsub r hr⟩

/-- C1 witness: round trip on an empty store with matching hash set. -/
theorem save_load_roundtrip_witness :
    load_latest_checkpoint
        (save_checkpoint [] [exRecord] [create_record_hash exRecord]
          1 "n" "20240101_120000") "n"
      = ⟨some [exRecord], [create_record_hash exRecord], 1⟩ :=
  (save_load_roundtrip [] [exRecord] [create_record_hash exRecord] 1 "n"
    "20240101_120000" (by decide) (by decide) (by decide)).1

/-! ## C5: latest-snapshot selection -/

/-- C5 counterexample: with snapshots 10 and 2 saved in the same second,
`load_latest_checkpoint` returns snapshot 2, not the one with the highest
sequence number, because `max()` compares whole filenames as strings and
`"..._2.json"` sorts after `"..._10.json"`. -/
theorem load_latest_not_highest_seq :
    ("checkpoint_n_20240101_120000_10.json",
        CheckpointContent.modern
          ⟨[exRecord], [create_record_hash exRecord], "20240101_120000", 1⟩)
      ∈ exStoreC5
    ∧ parseCheckpointNum "checkpoint_n_20240101_120000_10.json" = 10
    ∧ load_latest_checkpoint exStoreC5 "n" = ⟨some [], [], 2⟩
    ∧ (2 : Nat) ≠ 10 := by
  refine ⟨by decide, by decide, by decide, by decide⟩

/-- C5 (amended): `load_latest_checkpoint` returns the stored snapshot whose
*filename* is the lexicographic maximum (Python `max`) among the files with
the entity's prefix — timestamp-major, sequence number compared as text —
together with the number parsed from that filename; this agrees with
"highest sequence number" only when that order agrees with filename order.
If no snapshot exists it returns the absent result
`(None, set(), 0)`. -/
theorem load_latest_selects_max_filename (fs : FileSystem) (nbhd : String)
    (hnd : (listdir fs).Nodup) :
    (matchingFiles fs nbhd = [] →
      load_latest_checkpoint fs nbhd = ⟨none, [], 0⟩)
    ∧ (matchingFiles fs nbhd ≠ [] →
        ∃ c, (maxFile (matchingFiles fs nbhd), c) ∈ fs
          ∧ maxFile (matchingFiles fs nbhd) ∈ matchingFiles fs nbhd
          ∧ (∀ f ∈ matchingFiles fs nbhd,
              strLt (maxFile (matchingFiles fs nbhd)) f = false)
          ∧ load_latest_checkpoint fs nbhd
              = renderContent (maxFile (matchingFiles fs nbhd)) c) := by
  constructor
  · intro hempty
    unfold load_latest_checkpoint
    rw [if_pos hempty]
  · intro hne
    obtain ⟨f, rest, hcons⟩ : ∃ f rest, matchingFiles fs nbhd = f :: rest := by
      cases hmf : matchingFiles fs nbhd with
      | nil => exact absurd hmf hne
      | cons f rest => exact ⟨f, rest, rfl⟩
    have hmfr : maxFile (matchingFiles fs nbhd) = pyMax f rest := by
      rw [hcons, maxFile]
    have hmem : maxFile (matchingFiles fs nbhd) ∈ matchingFiles fs nbhd := by
      rw [hmfr, hcons]
      rcases pyMax_cases rest f with he | hm
      · rw [he]; exact List.mem_cons_self f rest
      · exact List.mem_cons_of_mem f hm
    have hub : ∀ g ∈ matchingFiles fs nbhd,
        strLt (maxFile (matchingFiles fs nbhd)) g = false := by
      intro g hg
      rw [hcons] at hg
      rw [hmfr]
      rcases List.mem_cons.mp hg with rfl | hg'
      · exact pyMax_not_lt rest g g (Or.inl rfl)
      · exact pyMax_not_lt rest f g (Or.inr hg')
    have hld : maxFile (matchingFiles fs nbhd) ∈ listdir fs :=
      matchingFiles_subset_listdir fs nbhd _ hmem
    obtain ⟨e, he, heq⟩ := List.mem_map.mp hld
    have hrd : readFile? fs (maxFile (matchingFiles fs nbhd)) = some e.2 := by
      apply readFile_of_nodup fs _ _ hnd
      rw [← heq]
      exact he
    refine ⟨e.2, ?_, hmem, hub, ?_⟩
    · rw [← heq]
      exact he
    · unfold load_latest_checkpoint
      rw [if_neg hne, hrd]
      cases e.2 <;> rfl

/-- C5 witness: the amended selection theorem at the two-snapshot store. -/
theorem load_latest_selects_max_filename_witness :
    (listdir exStoreC5).Nodup
    ∧ (matchingFiles exStoreC5 "n" ≠ [] →
        ∃ c, (maxFile (matchingFiles exStoreC5 "n"), c) ∈ exStoreC5
          ∧ maxFile (matchingFiles exStoreC5 "n") ∈ matchingFiles exStoreC5 "n"
          ∧ (∀ f ∈ matchingFiles exStoreC5 "n",
              strLt (maxFile (matchingFiles exStoreC5 "n")) f = false)
          ∧ load_latest_checkpoint exStoreC5 "n"
              = renderContent (maxFile (matchingFiles exStoreC5 "n")) c) :=
  ⟨by decide, (load_latest_selects_max_filename exStoreC5 "n" (by decide)).2⟩

/-! ## C6: legacy snapshot compatibility -/

/-- C6: when the selected latest checkpoint file holds the legacy shape — a
bare record list with no `seen_hashes` key — `load_latest_checkpoint`
returns that list as the records and a seen-hash set whose members are
exactly the `create_record_hash` values of those records (the same hash
function used for dedup). -/
theorem legacy_snapshot_hashes (fs : FileSystem) (nbhd : String)
    (l : List TransactionRecord)
    (hne : matchingFiles fs nbhd ≠ [])
    (hread : readFile? fs (maxFile (matchingFiles fs nbhd))
      = some (.legacy l)) :
    (load_latest_checkpoint fs nbhd).data = some l
    ∧ ∀ h, h ∈ (load_latest_checkpoint fs nbhd).seen_hashes ↔
        ∃ r ∈ l, create_record_hash r = h := by
  have hload : load_latest_checkpoint fs nbhd
      = ⟨some l, l.map create_record_hash,
          parseCheckpointNum (maxFile (matchingFiles fs nbhd))⟩ := by
    unfold load_latest_checkpoint
    rw [if_neg hne, hread]
  rw [hload]
  refine ⟨rfl, fun h => ?_⟩
  simp [List.mem_map]

/-- C6 witness: loading a concrete legacy snapshot yields its records and
their hashes. -/
theorem legacy_snapshot_hashes_witness :
    (load_latest_checkpoint exStoreC6 "n").data = some [exRecord]
    ∧ create_record_hash exRecord ∈
        (load_latest_checkpoint exStoreC6 "n").seen_hashes := by
  have h := legacy_snapshot_hashes exStoreC6 "n" [exRecord] (by decide) (by decide)
  exact ⟨h.1, (h.2 (create_record_hash exRecord)).mpr
    ⟨exRecord, List.mem_cons_self exRecord [], rfl⟩⟩

/-! ## C7: atomicity of save -/

/-- C7 counterexample: `save_checkpoint` opens the final path with `'w'` and
dumps JSON directly — there is no temporary file and no rename.  A crash in
the middle of the dump leaves a truncated file under the final name; since
that name sorts after the previous snapshot's, `load_latest_checkpoint`
selects it, fails to parse it, and returns the absent result — the prior
good snapshot is no longer the latest-readable one. -/
theorem crash_mid_save_corrupts :
    load_latest_checkpoint exStoreA "n"
      = ⟨some [exRecord], [create_record_hash exRecord], 1⟩
    ∧ load_latest_checkpoint
        (save_checkpoint_interrupted exStoreA 2 "n" "20240102_000000") "n"
      = ⟨none, [], 0⟩ := by
  refine ⟨by decide, by decide⟩

/-- C7 (amended): `save_checkpoint` never deletes prior snapshots (every
entry under a different name survives a save), but it writes the snapshot
directly to its final path with no write-then-rename step, so a crash
mid-write leaves a corrupt file that — when its name sorts after all other
checkpoint filenames of the entity, as a fresh timestamp makes it do —
causes `load_latest_checkpoint` to return the absent result instead of the
prior snapshot. -/
theorem save_direct_write (fs : FileSystem) (R : List TransactionRecord)
    (H : List String) (num : Nat) (nbhd ts : String) :
    (∀ e ∈ fs, e.1 ≠ mkFilename nbhd ts num →
        e ∈ save_checkpoint fs R H num nbhd ts)
    ∧ ((∀ f ∈ matchingFiles fs nbhd,
          strLt f (mkFilename nbhd ts num) = true) →
        load_latest_checkpoint
            (save_checkpoint_interrupted fs num nbhd ts) nbhd
          = ⟨none, [], 0⟩) := by
  constructor
  · intro e he hne
    unfold save_checkpoint writeFile
    apply List.mem_cons_of_mem
    rw [List.mem_filter]
    exact ⟨he, by simpa using hne⟩
  · intro hfresh
    have := load_after_write fs (mkFilename nbhd ts num) .corrupt nbhd
      (mkFilename_matches nbhd ts num) hfresh
    rw [save_checkpoint_interrupted]
    exact this

/-- C7 witness: the amended theorem at a concrete store — the old snapshot
survives a completed save, and an interrupted save makes loading return
absent. -/
theorem save_direct_write_witness :
    (("checkpoint_n_20240101_120000_1.json",
        CheckpointContent.modern
          ⟨[exRecord], [create_record_hash exRecord], "20240101_120000", 1⟩)
      ∈ save_checkpoint exStoreA [] [] 2 "n" "20240102_000000")
    ∧ load_latest_checkpoint
        (save_checkpoint_interrupted exStoreA 2 "n" "20240102_000000") "n"
      = ⟨none, [], 0⟩ :=
  ⟨(save_direct_write exStoreA [] [] 2 "n" "20240102_000000").1 _
      (by decide) (by decide),
   (save_direct_write exStoreA [] [] 2 "n" "20240102_000000").2 (by decide)⟩

/-! ## C4: idempotent re-extraction -/

theorem dedupStep_seen_mono (st : CrawlState) (t : TransactionRecord)
    {s : String} (h : s ∈ st.seen_hashes) : s ∈ (dedupStep st t).seen_hashes := by
  unfold dedupStep
  dsimp only
  split_ifs with hc
  · exact h
  · exact List.mem_cons_of_mem _ h

theorem foldl_dedup_seen_mono (recs : List TransactionRecord) :
    ∀ (st : CrawlState) {s : String}, s ∈ st.seen_hashes →
      s ∈ (recs.foldl dedupStep st).seen_hashes := by
  induction recs with
  | nil => intro st s h; exact h
  | cons r rs ih =>
    intro st s h
    exact ih (dedupStep st r) (dedupStep_seen_mono st r h)

theorem foldl_dedup_hash_mem (recs : List TransactionRecord) :
    ∀ (st : CrawlState) (r : TransactionRecord), r ∈ recs →
      create_record_hash r ∈ (recs.foldl dedupStep st).seen_hashes := by
  induction recs with
  | nil => intro st r h; simp at h
  | cons x xs ih =>
    intro st r h
    rcases List.mem_cons.mp h with rfl | h'
    · apply foldl_dedup_seen_mono xs (dedupStep st r)
      unfold dedupStep
      dsimp only
      split_ifs with hc
      · exact hc
      · exact List.mem_cons_self _ _
    · exact ih (dedupStep st x) r h'

theorem foldl_dedup_all_seen (recs : List TransactionRecord) :
    ∀ (st : CrawlState),
      (∀ r ∈ recs, create_record_hash r ∈ st.seen_hashes) →
      recs.foldl dedupStep st
        = { st with duplicates := st.duplicates + recs.length } := by
  induction recs with
  | nil => intro st _; simp
  | cons r rs ih =>
    intro st hall
    have hstep : dedupStep st r = { st with duplicates := st.duplicates + 1 } := by
      unfold dedupStep
      dsimp only
      rw [if_pos (hall r (List.mem_cons_self r rs))]
    rw [List.foldl_cons, hstep]
    rw [ih { st with duplicates := st.duplicates + 1 }
      (fun x hx => hall x (List.mem_cons_of_mem r hx))]
    simp only [List.length_cons]
    rw [show st.duplicates + 1 + rs.length = st.duplicates + (rs.length + 1) from by omega]

/-- C4: running the extraction-plus-dedup step a second time over the same
page's raw rows, starting from the dedup index and accumulator left by the
first run, changes nothing except the duplicate counter, which grows by the
number of produced records: no record is appended, no hash is added, and
every produced record is counted as a duplicate. -/
theorem reextraction_idempotent (st : CrawlState) (page : List RawRow) :
    (pageTransactions page).foldl dedupStep
        ((pageTransactions page).foldl dedupStep st)
      = { (pageTransactions page).foldl dedupStep st with
          duplicates := ((pageTransactions page).foldl dedupStep st).duplicates
            + (pageTransactions page).length } :=
  foldl_dedup_all_seen (pageTransactions page)
    ((pageTransactions page).foldl dedupStep st)
    (fun r hr => foldl_dedup_hash_mem (pageTransactions page) st r hr)

/-! ## C8: terminal-state checkpointing -/

theorem crawlLoop_inr_zero (neighborhood : String) (tsFn : Nat → String) :
    ∀ (steps : List PageStep) (st : CrawlState) (f : FileSystem) (c : Nat),
      crawlLoop neighborhood tsFn st steps = .inr (f, c) → c = 0 := by
  intro steps
  induction steps with
  | nil => intro st f c h; simp [crawlLoop] at h
  | cons s rest ih =>
    intro st f c h
    cases s with
    | raise =>
      simp only [crawlLoop] at h
      cases h
      rfl
    | rows page =>
      simp only [crawlLoop] at h
      exact ih _ f c h

/-- C8 counterexample: the claim says a crawl reaching `Failed` with unsaved
records performs a final checkpoint save and returns the count persisted so
far.  Starting from a store holding one persisted record, a session that
extracts one fresh record (so one unsaved record remains,
`records_since = 1`) and then dies with an exception reaching the outer
handler returns `0` — not the persisted count `1` — and the store is
unchanged: no final save happened. -/
theorem failed_path_no_save :
    process_neighborhood exStoreA exTsFn "n" sessRaise = (exStoreA, 0)
    ∧ ((load_latest_checkpoint exStoreA "n").data.getD []).length = 1
    ∧ (processPage "n" exTsFn (initState exStoreA "n")
        [⟨exRecord2, []⟩]).records_since = 1 := by
  refine ⟨by decide, by decide, by decide⟩

/-- C8 (amended): when a crawl completes its pages (`Done`) with unsaved
records remaining, a final checkpoint holding the full accumulator is
written before returning; a search failure returns the count of records
loaded from the checkpoint (those persisted so far) without propagating any
error; but a crawl that dies with an unexpected exception escaping the inner
handlers performs no final save and returns `0` rather than the persisted
count — still without propagating the error to the scheduler. -/
theorem terminal_state_checkpointing (fs : FileSystem) (tsFn : Nat → String)
    (nbhd : String) (s : Session) :
    (s.initLoadOk = true → s.searchOk = false →
      process_neighborhood fs tsFn nbhd s
        = (fs, ((load_latest_checkpoint fs nbhd).data.getD []).length))
    ∧ (∀ st : CrawlState, s.initLoadOk = true → s.searchOk = true →
        crawlLoop nbhd tsFn (initState fs nbhd) (s.pages.take MAX_PAGES)
          = .inl st →
        0 < st.records_since →
        (mkFilename nbhd (tsFn (st.checkpoint_num + 1)) (st.checkpoint_num + 1),
            CheckpointContent.modern
              ⟨st.all_data, st.seen_hashes, tsFn (st.checkpoint_num + 1),
                st.all_data.length⟩)
          ∈ (process_neighborhood fs tsFn nbhd s).1)
    ∧ (∀ f c, s.initLoadOk = true → s.searchOk = true →
        crawlLoop nbhd tsFn (initState fs nbhd) (s.pages.take MAX_PAGES)
          = .inr (f, c) →
        process_neighborhood fs tsFn nbhd s = (f, c) ∧ c = 0) := by
  refine ⟨?_, ?_, ?_⟩
  · intro hio hso
    unfold process_neighborhood
    rw [hio, hso]
    simp [initState]
  · intro st hio hso hloop hsince
    unfold process_neighborhood
    rw [hio, hso]
    simp only [Bool.true_eq_false, if_false, hloop]
    rw [if_pos hsince]
    have hmem : (mkFilename nbhd (tsFn (st.checkpoint_num + 1))
          (st.checkpoint_num + 1),
        CheckpointContent.modern
          ⟨st.all_data, st.seen_hashes, tsFn (st.checkpoint_num + 1),
            st.all_data.length⟩)
        ∈ save_checkpoint st.fs st.all_data st.seen_hashes
            (st.checkpoint_num + 1) nbhd (tsFn (st.checkpoint_num + 1)) := by
      unfold save_checkpoint writeFile
      exact List.mem_cons_self _ _
    split_ifs with hempty
    · exact hmem
    · exact hmem
  · intro f c hio hso hloop
    refine ⟨?_, crawlLoop_inr_zero nbhd tsFn _ _ f c hloop⟩
    unfold process_neighborhood
    rw [hio, hso]
    simp only [Bool.true_eq_false, if_false, hloop]

/-- C8 witness: on a session that extracts one fresh record and ends
normally, the final checkpoint containing both records is written. -/
theorem terminal_state_checkpointing_witness :
    ("checkpoint_n_20240101_120001_2.json",
        CheckpointContent.modern
          ⟨[exRecord, exRecord2],
            [create_record_hash exRecord2, create_record_hash exRecord],
            "20240101_120001", 2⟩)
      ∈ (process_neighborhood exStoreA exTsFn "n" sessDone).1 := by
  have h := (terminal_state_checkpointing exStoreA exTsFn "n" sessDone).2.1
    ⟨exStoreA, [exRecord, exRecord2],
      [create_record_hash exRecord2, create_record_hash exRecord], 1, 1, 0, 1⟩
    rfl rfl (by decide) (by decide)
  exact h

/-! ## C10: the extractor never mutates its input -/

theorem heapGet_append_left (h : Heap) (l : List TransactionRecord) (j : Nat)
    (hj : j < h.length) : heapGet (h ++ l) j = heapGet h j := by
  unfold heapGet
  rw [List.getD_eq_getElem?_getD, List.getD_eq_getElem?_getD,
    List.getElem?_append_left hj]

theorem heapGet_append_self (h : Heap) (a : TransactionRecord) :
    heapGet (h ++ [a]) h.length = a := by
  unfold heapGet
  rw [List.getD_eq_getElem?_getD, List.getElem?_append_right (le_refl _)]
  simp

theorem set_append_self (h : Heap) (a v : TransactionRecord) :
    (h ++ [a]).set h.length v = h ++ [v] := by
  induction h with
  | nil => rfl
  | cons x xs ih => simp [ih]

theorem extractLoopST_spec (features : List String) (bRef : Nat) :
    ∀ (fuel i : Nat) (h : Heap), bRef < h.length →
      extractLoopST features bRef i fuel h
        = (h ++ extractLoop features (heapGet h bRef) i fuel,
           List.range' h.length
             (extractLoop features (heapGet h bRef) i fuel).length) := by
  intro fuel
  induction fuel with
  | zero =>
    intro i h hb
    simp [extractLoopST, extractLoop]
  | succ fuel ih =>
    intro i h hb
    have tail : ∀ X : TransactionRecord,
        extractLoopST features bRef (i + 1) fuel (h ++ [X])
          = ((h ++ [X]) ++ extractLoop features (heapGet h bRef) (i + 1) fuel,
             List.range' (h.length + 1)
               (extractLoop features (heapGet h bRef) (i + 1) fuel).length) := by
      intro X
      have hbX : bRef < (h ++ [X]).length := by
        rw [List.length_append]
        omega
      rw [ih (i + 1) (h ++ [X]) hbX, heapGet_append_left h [X] bRef hb]
      rw [List.length_append]
      rfl
    by_cases hstop : safe_get features (8 + 2 * i) = ""
        ∧ safe_get features (9 + 2 * i) = ""
    · simp only [extractLoopST, extractLoop]
      rw [if_pos hstop, if_pos hstop]
      simp
    · simp only [extractLoopST, extractLoop]
      rw [if_neg hstop, if_neg hstop]
      dsimp only [allocCopy, overrideTxn]
      split_ifs with hp hd hd
      · simp only [heapGet_append_self, set_append_self, tail]
        simp [List.append_assoc, List.range'_succ]
      · simp only [heapGet_append_self, set_append_self, tail]
        simp [List.append_assoc, List.range'_succ]
      · simp only [heapGet_append_self, set_append_self, tail]
        simp [List.append_assoc, List.range'_succ]
      · simp only [heapGet_append_self, set_append_self, tail]
        simp [List.append_assoc, List.range'_succ]

theorem extract_st_spec (features : List String) (bRef : Nat) (h : Heap)
    (hb : bRef < h.length) :
    extract_multiple_transactions_st features bRef h
      = (h ++ extract_multiple_transactions features (heapGet h bRef),
         List.range' h.length
           (extract_multiple_transactions features (heapGet h bRef)).length) := by
  unfold extract_multiple_transactions_st
  dsimp only [allocCopy]
  have hbX : bRef < (h ++ [heapGet h bRef]).length := by
    rw [List.length_append]
    omega
  rw [extractLoopST_spec features bRef (features.length + 1) 0
    (h ++ [heapGet h bRef]) hbX]
  rw [heapGet_append_left h [heapGet h bRef] bRef hb]
  rw [List.length_append]
  unfold extract_multiple_transactions
  simp [List.append_assoc, List.range'_succ]

/-- C10: on the explicit heap, `extract_multiple_transactions` leaves every
pre-existing cell — in particular the caller's base record — unchanged, and
the references it returns are pairwise distinct, freshly allocated (all at
or past the old heap end), and hold exactly the records of the pure
extraction, so mutating one emitted record can affect neither the base
record nor any other emitted record. -/
theorem extract_st_frame (features : List String) (bRef : Nat) (h : Heap)
    (hb : bRef < h.length) :
    (∀ j, j < h.length →
        heapGet (extract_multiple_transactions_st features bRef h).1 j
          = heapGet h j)
    ∧ List.Pairwise (· ≠ ·) (extract_multiple_transactions_st features bRef h).2
    ∧ (∀ r ∈ (extract_multiple_transactions_st features bRef h).2,
        h.length ≤ r)
    ∧ (extract_multiple_transactions_st features bRef h).2.map
        (heapGet (extract_multiple_transactions_st features bRef h).1)
      = extract_multiple_transactions features (heapGet h bRef) := by
  rw [extract_st_spec features bRef h hb]
  refine ⟨?_, ?_, ?_, ?_⟩
  · intro j hj
    exact heapGet_append_left h _ j hj
  · exact List.nodup_range' h.length _
  · intro r hr
    exact (List.mem_range'_1.mp hr).1
  · have hmap : ∀ (l : List TransactionRecord) (hh : Heap),
        (List.range' hh.length l.length).map (heapGet (hh ++ l)) = l := by
      intro l
      induction l with
      | nil => intro hh; simp
      | cons a t iht =>
        intro hh
        rw [List.length_cons, List.range'_succ, List.map_cons]
        have h1 : hh ++ a :: t = (hh ++ [a]) ++ t := by
          rw [List.append_assoc]
          rfl
        have h2 : heapGet (hh ++ a :: t) hh.length = a := by
          rw [h1, heapGet_append_left (hh ++ [a]) t hh.length (by simp)]
          exact heapGet_append_self hh a
        rw [h2]
        have h3 : hh.length + 1 = (hh ++ [a]).length := by simp
        rw [h1, h3, iht (hh ++ [a])]
    exact hmap _ h

/-- C10 witness: the frame theorem at a one-cell heap holding the base
record. -/
theorem extract_st_frame_witness :
    0 < ([exRecord] : Heap).length
    ∧ (extract_multiple_transactions_st exFeatures 0 [exRecord]).2.map
        (heapGet (extract_multiple_transactions_st exFeatures 0 [exRecord]).1)
      = extract_multiple_transactions exFeatures (heapGet [exRecord] 0) :=
  ⟨by decide, (extract_st_frame exFeatures 0 [exRecord] (by decide)).2.2.2⟩

end HousePrices
